import Mathlib

/-!
Shallow embedding of the interactive state machine of the `dynamodb-tui` tool
(files `src/app.rs`, `src/keyboard.rs`, `src/models.rs`, `src/aws.rs`), together
with theorems settling the specification claims about it.

Rust machine strings are modelled as Lean `String` (Rust byte length is
`String.utf8ByteSize`, Rust `str::contains` is contiguous-sublist occurrence on
the character sequence, which coincides with byte-level search because UTF-8 is
self-synchronizing).  Rust `u8` bytes are modelled as `Nat` with explicit
`< 256` bounds where they matter.  Fallible parses return `Option`/`Except`.
-/

/-! ### Generic Rust-string helpers -/

/-- Character-list version of Rust slice equality at the head:
`leadEq pat l` holds when `pat` occurs at the start of `l`. -/
def leadEq : List Char → List Char → Bool
  | [], _ => true
  | _ :: _, [] => false
  | a :: as, b :: bs => a == b && leadEq as bs

/-- `occursIn pat hay`: `pat` occurs contiguously somewhere in `hay`
(model of Rust `str::contains` on the character sequence). -/
def occursIn : List Char → List Char → Bool
  | pat, [] => leadEq pat []
  | pat, h :: t => leadEq pat (h :: t) || occursIn pat t

/-- Model of Rust `String::contains(&pat)`. -/
def strContains (hay pat : String) : Bool :=
  occursIn pat.data hay.data

/-- Model of Rust `String::pop` (removes the last character, if any). -/
def rustPop (s : String) : String :=
  String.mk s.data.dropLast

/-- Whitespace predicate used by Rust `str::trim` (restricted to the ASCII
whitespace characters, which is all the development ever feeds it: the
characters produced by the hex display are hexadecimal digits). -/
def rustWs (c : Char) : Bool :=
  c == ' ' || c == '\t' || c == '\n' || c == '\r'

/-- Model of Rust `str::trim`: drop whitespace from both ends. -/
def rustTrim (l : List Char) : List Char :=
  ((l.dropWhile rustWs).reverse.dropWhile rustWs).reverse

/-- Accumulator loop of a decimal-digit parse: fails on any non-digit. -/
def digitsAcc : List Char → Nat → Option Nat
  | [], acc => some acc
  | c :: cs, acc =>
    if c.isDigit then digitsAcc cs (10 * acc + (c.toNat - 48)) else none

/-- Value of a non-empty all-decimal-digit character list. -/
def digitsVal : List Char → Option Nat
  | [] => none
  | c :: cs => digitsAcc (c :: cs) 0

/-- Model of Rust `str::parse::<i64>()`: optional sign, decimal digits,
failure on empty digit strings, non-digits and 64-bit overflow. -/
def parse_i64 (s : String) : Option Int :=
  match s.data with
  | '+' :: rest =>
    (digitsVal rest).bind fun n =>
      if n ≤ 9223372036854775807 then some (Int.ofNat n) else none
  | '-' :: rest =>
    (digitsVal rest).bind fun n =>
      if n ≤ 9223372036854775808 then some (-(Int.ofNat n)) else none
  | l =>
    (digitsVal l).bind fun n =>
      if n ≤ 9223372036854775807 then some (Int.ofNat n) else none

/-! ### Hexadecimal display and parse (keyboard.rs lines 475-477 and 543-557) -/

/-- Lowercase hex digit for a value `< 16`, as produced by Rust
`format!("\x7b:02x\x7d", byte)`. -/
def hexDigitChar (n : Nat) : Char :=
  if n < 10 then Char.ofNat (48 + n) else Char.ofNat (87 + n)

/-- Hex display of a byte sequence: two lowercase digits per byte
(model of `b.iter().map(|byte| format!("\x7b:02x\x7d", byte)).collect::<String>()`). -/
def bytesToHex : List Nat → List Char
  | [] => []
  | b :: bs => hexDigitChar (b / 16) :: hexDigitChar (b % 16) :: bytesToHex bs

/-- Value of one hex digit character as accepted by Rust
`u8::from_str_radix(_, 16)` (decimal digits, `a`-`f`, `A`-`F`). -/
def hexDigitVal (c : Char) : Option Nat :=
  if 48 ≤ c.toNat ∧ c.toNat ≤ 57 then some (c.toNat - 48)
  else if 97 ≤ c.toNat ∧ c.toNat ≤ 102 then some (c.toNat - 87)
  else if 65 ≤ c.toNat ∧ c.toNat ≤ 70 then some (c.toNat - 55)
  else none

/-- Model of `u8::from_str_radix` applied to a two-character slice.
`from_str_radix` also accepts a single leading `+` sign, hence the first
branch; overflow is impossible for two hex digits. -/
def hexPairVal (c₁ c₂ : Char) : Option Nat :=
  if c₁ == '+' then hexDigitVal c₂
  else
    match hexDigitVal c₁, hexDigitVal c₂ with
    | some h, some l => some (16 * h + l)
    | _, _ => none

/-- Character-level model of the hex-pair scan in `handle_attribute_editing`
(keyboard.rs lines 549-555): take the digits two at a time, keep the pairs
that parse, drop the pairs that do not and any trailing unpaired digit. -/
def hexPairs : List Char → List Nat
  | c₁ :: c₂ :: rest =>
    match hexPairVal c₁ c₂ with
    | some b => b :: hexPairs rest
    | none => hexPairs rest
  | _ => []

/-- Byte-faithful model of the same loop.  The Rust loop indexes the string by
BYTES (`&hex_str[i..i+2]` with `i` stepping by two), so when the buffer holds
multi-byte characters a slice boundary can fall inside a character's UTF-8
encoding, which panics in Rust.  `Except.error ()` models that panic; on
all-single-byte buffers the function agrees with `hexPairs`. -/
def rustHexLoop : List Char → Except Unit (List Nat)
  | [] => Except.ok []
  | [c] =>
    if c.utf8Size = 1 then Except.ok []
    else if c.utf8Size = 2 then Except.ok []
    else Except.error ()
  | c₁ :: c₂ :: rest =>
    if c₁.utf8Size = 1 then
      if c₂.utf8Size = 1 then
        match hexPairVal c₁ c₂ with
        | some b => (rustHexLoop rest).map (b :: ·)
        | none => rustHexLoop rest
      else Except.error ()
    else if c₁.utf8Size = 2 then rustHexLoop (c₂ :: rest)
    else Except.error ()

/-! ### Data model (models.rs) -/

inductive AttributeType where
  | string
  | number
  | binary
deriving DecidableEq

inductive BillingMode where
  | onDemand
  | provisioned
deriving DecidableEq

structure KeySchema where
  name : String
  keyType : AttributeType
deriving DecidableEq

/-- `AttributeValue` from models.rs.  `Binary` bytes are `Nat`s (`< 256` where
it matters); the `Map` payload is an association list standing for the Rust
`HashMap`. -/
inductive AttributeValue where
  | str (s : String)
  | num (n : String)
  | bin (b : List Nat)
  | bool (b : Bool)
  | null
  | strSet (ss : List String)
  | numSet (ns : List String)
  | binSet (bs : List (List Nat))
  | list (l : List AttributeValue)
  | map (m : List (String × AttributeValue))

inductive EditorMode where
  | create
  | edit
deriving DecidableEq

inductive EditingField where
  | key
  | value
  | typeTag
deriving DecidableEq

structure ItemEditorState where
  mode : EditorMode
  tableName : String
  hashKeySchema : KeySchema
  rangeKeySchema : Option KeySchema
  attributes : List (String × AttributeValue)
  selectedAttributeIndex : Nat
  editingField : Option EditingField
  inputBuffer : String

structure DynamoTable where
  name : String
  hashKey : KeySchema
  rangeKey : Option KeySchema
  billingMode : BillingMode
  readCapacity : Option Int
  writeCapacity : Option Int
  tableStatus : String
  itemCount : Option Int
  tableSizeBytes : Option Int
  region : String

structure TableConfig where
  name : String
  hashKey : KeySchema
  rangeKey : Option KeySchema
  billingMode : BillingMode
  readCapacity : Option Int
  writeCapacity : Option Int

/-! ### Wizard (app.rs lines 65-179, keyboard.rs lines 181-243) -/

inductive WizardStep where
  | basicConfig
  | billingConfig
  | review
deriving DecidableEq

inductive WizardField where
  | tableName
  | hashKeyName
  | hashKeyType
  | hasRangeKey
  | rangeKeyName
  | rangeKeyType
  | billingMode
  | readCapacity
  | writeCapacity
deriving DecidableEq

structure WizardState where
  step : WizardStep
  tableName : String
  hashKeyName : String
  hashKeyType : AttributeType
  hasRangeKey : Bool
  rangeKeyName : String
  rangeKeyType : AttributeType
  billingMode : BillingMode
  readCapacity : String
  writeCapacity : String
  currentField : WizardField
deriving DecidableEq

/-- `WizardState::new` (app.rs lines 101-115). -/
def WizardState.new : WizardState :=
  { step := WizardStep.basicConfig
    tableName := ""
    hashKeyName := ""
    hashKeyType := AttributeType.string
    hasRangeKey := false
    rangeKeyName := ""
    rangeKeyType := AttributeType.string
    billingMode := BillingMode.onDemand
    readCapacity := "5"
    writeCapacity := "5"
    currentField := WizardField.tableName }

/-- `WizardState::validate_basic_config` (app.rs lines 117-131).
Rust `String::len` is the UTF-8 byte size. -/
def validate_basic_config (ws : WizardState) : Except String Unit :=
  if ws.tableName.isEmpty then Except.error "Table name is required"
  else if ws.tableName.utf8ByteSize < 3 ∨ 255 < ws.tableName.utf8ByteSize then
    Except.error "Table name must be 3-255 characters"
  else if ws.hashKeyName.isEmpty then Except.error "Hash key name is required"
  else if ws.hasRangeKey ∧ ws.rangeKeyName.isEmpty then
    Except.error "Range key name is required when enabled"
  else Except.ok ()

/-- `WizardState::validate_billing_config` (app.rs lines 133-146). -/
def validate_billing_config (ws : WizardState) : Except String Unit :=
  if ws.billingMode = BillingMode.provisioned then
    match parse_i64 ws.readCapacity with
    | none => Except.error "Read capacity must be a positive integer"
    | some r =>
      if r < 1 then Except.error "Read capacity must be a positive integer"
      else
        match parse_i64 ws.writeCapacity with
        | none => Except.error "Write capacity must be a positive integer"
        | some w =>
          if w < 1 then Except.error "Write capacity must be a positive integer"
          else Except.ok ()
  else Except.ok ()

/-- `WizardState::to_table_config` (app.rs lines 148-178): capacities are
parsed from their text buffers only here, with `.ok()` turning a parse
failure into `none`. -/
def to_table_config (ws : WizardState) : TableConfig :=
  { name := ws.tableName
    hashKey := { name := ws.hashKeyName, keyType := ws.hashKeyType }
    rangeKey :=
      if ws.hasRangeKey then
        some { name := ws.rangeKeyName, keyType := ws.rangeKeyType }
      else none
    billingMode := ws.billingMode
    readCapacity :=
      if ws.billingMode = BillingMode.provisioned then parse_i64 ws.readCapacity
      else none
    writeCapacity :=
      if ws.billingMode = BillingMode.provisioned then parse_i64 ws.writeCapacity
      else none }

/-- Throughput actually placed on the create-table request by
`AwsManager::create_table` (aws.rs lines 188-201): absent for on-demand
billing, and `unwrap_or(5)` applied to each capacity when provisioned. -/
def create_table_throughput (cfg : TableConfig) : Option (Int × Int) :=
  match cfg.billingMode with
  | BillingMode.onDemand => none
  | BillingMode.provisioned =>
    some (cfg.readCapacity.getD 5, cfg.writeCapacity.getD 5)

/-- `Enter` inside the wizard (keyboard.rs lines 187-208), acting on the
wizard state and the app status message. -/
def handle_wizard_enter (ws : WizardState) (status : String) :
    WizardState × String :=
  match ws.step with
  | WizardStep.basicConfig =>
    match validate_basic_config ws with
    | Except.error e => (ws, e)
    | Except.ok _ => ({ ws with step := WizardStep.billingConfig }, status)
  | WizardStep.billingConfig =>
    match validate_billing_config ws with
    | Except.error e => (ws, e)
    | Except.ok _ => ({ ws with step := WizardStep.review }, status)
  | WizardStep.review => (ws, status)

/-! ### App state and region selector (app.rs lines 7-22 and 181-293,
keyboard.rs lines 132-179) -/

inductive DeleteTarget where
  | table (name : String)
  | item
deriving DecidableEq

inductive AppState where
  | regularTablesView
  | tableItemsView
  | regionSelector
  | tableCreationWizard
  | itemEditor
  | deleteConfirmation (t : DeleteTarget)
  | help
deriving DecidableEq

/-- The slice of `App` that the region-selector logic reads and writes:
top-level state, current region, the fixed catalog, the filter text, the
filtered sequence and the `ListState` selection. -/
structure RegionApp where
  state : AppState
  currentRegion : String
  availableRegions : List String
  regionFilter : String
  filteredRegions : List String
  regionSelectorSelected : Option Nat
deriving DecidableEq

/-- The fixed region catalog from `App::new` (app.rs lines 183-212). -/
def awsRegions : List String :=
  ["us-east-1", "us-east-2", "us-west-1", "us-west-2", "af-south-1",
   "ap-east-1", "ap-south-1", "ap-south-2", "ap-southeast-1",
   "ap-southeast-2", "ap-southeast-3", "ap-southeast-4", "ap-northeast-1",
   "ap-northeast-2", "ap-northeast-3", "ca-central-1", "ca-west-1",
   "eu-central-1", "eu-central-2", "eu-west-1", "eu-west-2", "eu-west-3",
   "eu-south-1", "eu-south-2", "eu-north-1", "me-south-1", "me-central-1",
   "sa-east-1"]

/-- `App::update_region_filter` (app.rs lines 260-279): store the filter,
keep the catalog entries that contain it as a (case-sensitive) substring —
an empty filter keeps everything — and reset the selection to the first
entry only when the filtered sequence is non-empty. -/
def update_region_filter (app : RegionApp) (filter : String) : RegionApp :=
  let filtered := app.availableRegions.filter fun r =>
    if filter.isEmpty then true else strContains r filter
  let app' := { app with regionFilter := filter, filteredRegions := filtered }
  if filtered.isEmpty then app'
  else { app' with regionSelectorSelected := some 0 }

/-- Key events, as far as the handlers inspect them: the key code plus
whether the CONTROL modifier is held on a character key. -/
inductive EKey where
  | up
  | down
  | enter
  | esc
  | backspace
  | char (c : Char) (ctrl : Bool)
  | other
deriving DecidableEq

/-- `handle_region_selector_keys` (keyboard.rs lines 132-179). -/
def handle_region_selector_key (app : RegionApp) (k : EKey) : RegionApp :=
  match k with
  | EKey.esc => { app with state := AppState.regularTablesView }
  | EKey.enter =>
    match app.regionSelectorSelected with
    | some i =>
      match app.filteredRegions[i]? with
      | some region =>
        { app with currentRegion := region, state := AppState.regularTablesView }
      | none => app
    | none => app
  | EKey.up =>
    if app.filteredRegions.isEmpty then app
    else
      let cur := app.regionSelectorSelected.getD 0
      { app with
        regionSelectorSelected :=
          some (if 0 < cur then cur - 1 else app.filteredRegions.length - 1) }
  | EKey.down =>
    if app.filteredRegions.isEmpty then app
    else
      let cur := app.regionSelectorSelected.getD 0
      { app with
        regionSelectorSelected :=
          some (if cur < app.filteredRegions.length - 1 then cur + 1 else 0) }
  | EKey.char c _ => update_region_filter app (app.regionFilter.push c)
  | EKey.backspace => update_region_filter app (rustPop app.regionFilter)
  | EKey.other => app

/-- Opening the selector with `g` from the tables view (keyboard.rs lines
27-31): switch state, clear the filter, refilter with the empty string. -/
def open_region_selector (app : RegionApp) : RegionApp :=
  update_region_filter { app with state := AppState.regionSelector } ""

/-! ### Item editor (app.rs lines 295-354, keyboard.rs lines 358-600) -/

/-- Key-protection test used by cycle-type, delete-attribute and
start-key-edit: the attribute name equals the hash-key schema name or the
declared range-key schema name. -/
def is_key_name (hash : KeySchema) (range : Option KeySchema) (n : String) : Bool :=
  n == hash.name ||
    (match range with
     | some k => n == k.name
     | none => false)

/-- Boolean commit rule (keyboard.rs lines 538-541). -/
def bool_of_buffer (s : String) : Bool :=
  let v := s.map Char.toLower
  v == "true" || v == "1" || v == "yes"

/-- `Ctrl+N`: append a `"new_attribute"` String row and select it
(keyboard.rs lines 391-399). -/
def editor_add_attribute (st : ItemEditorState) : ItemEditorState :=
  let attrs := st.attributes ++ [("new_attribute", AttributeValue.str "")]
  { st with attributes := attrs, selectedAttributeIndex := attrs.length - 1 }

/-- `Ctrl+T`: cycle the selected attribute's type, blocked on key rows
(keyboard.rs lines 400-441). -/
def editor_cycle_type (st : ItemEditorState) : ItemEditorState :=
  match st.attributes[st.selectedAttributeIndex]? with
  | none => st
  | some (key, v) =>
    if is_key_name st.hashKeySchema st.rangeKeySchema key then st
    else
      let newv : AttributeValue :=
        match v with
        | AttributeValue.str s => AttributeValue.num s
        | AttributeValue.num _ => AttributeValue.bin []
        | AttributeValue.bin _ => AttributeValue.str ""
        | _ => AttributeValue.str ""
      { st with attributes := st.attributes.set st.selectedAttributeIndex (key, newv) }

/-- `Ctrl+D`: delete the selected attribute, blocked on key rows; the
selection is clamped to the new length (keyboard.rs lines 442-464). -/
def editor_delete_attribute (st : ItemEditorState) : ItemEditorState :=
  match st.attributes[st.selectedAttributeIndex]? with
  | none => st
  | some (key, _) =>
    if is_key_name st.hashKeySchema st.rangeKeySchema key then st
    else
      let attrs := st.attributes.eraseIdx st.selectedAttributeIndex
      let sel :=
        if attrs.length ≤ st.selectedAttributeIndex ∧ ¬attrs.isEmpty then
          attrs.length - 1
        else st.selectedAttributeIndex
      { st with attributes := attrs, selectedAttributeIndex := sel }

/-- `Enter` outside a sub-edit: seed the input buffer with the selected
value's display representation and enter `EditingValue`
(keyboard.rs lines 465-484). -/
def editor_start_value_edit (st : ItemEditorState) : ItemEditorState :=
  match st.attributes[st.selectedAttributeIndex]? with
  | none => st
  | some (_, v) =>
    let buf : String :=
      match v with
      | AttributeValue.str s => s
      | AttributeValue.num n => n
      | AttributeValue.bool b => if b then "true" else "false"
      | AttributeValue.bin bs => String.mk (bytesToHex bs)
      | _ => ""
    { st with inputBuffer := buf, editingField := some EditingField.value }

/-- `Ctrl+K`: start renaming the selected attribute, blocked on key rows
(keyboard.rs lines 485-505). -/
def editor_start_key_edit (st : ItemEditorState) : ItemEditorState :=
  match st.attributes[st.selectedAttributeIndex]? with
  | none => st
  | some (key, _) =>
    if is_key_name st.hashKeySchema st.rangeKeySchema key then st
    else { st with inputBuffer := key, editingField := some EditingField.key }

/-- `Enter` inside a sub-edit: commit the buffer (keyboard.rs lines 521-586).
The Binary case is the character-level `hexPairs` scan; its byte-level
behaviour, including the panic on multi-byte buffers, is `rustHexLoop`. -/
def editor_commit_edit (st : ItemEditorState) (f : EditingField) :
    ItemEditorState :=
  match st.attributes[st.selectedAttributeIndex]? with
  | none => { st with editingField := none, inputBuffer := "" }
  | some (key, curval) =>
    match f with
    | EditingField.value =>
      let newv : AttributeValue :=
        match curval with
        | AttributeValue.str _ => AttributeValue.str st.inputBuffer
        | AttributeValue.num _ => AttributeValue.num st.inputBuffer
        | AttributeValue.bool _ => AttributeValue.bool (bool_of_buffer st.inputBuffer)
        | AttributeValue.bin _ =>
          AttributeValue.bin (hexPairs (rustTrim st.inputBuffer.data))
        | _ => AttributeValue.str st.inputBuffer
      { st with
        attributes := st.attributes.set st.selectedAttributeIndex (key, newv)
        editingField := none
        inputBuffer := "" }
    | EditingField.key =>
      { st with
        attributes := st.attributes.set st.selectedAttributeIndex (st.inputBuffer, curval)
        editingField := none
        inputBuffer := "" }
    | EditingField.typeTag => { st with editingField := none, inputBuffer := "" }

/-- `handle_attribute_editing` (keyboard.rs lines 511-600): keys while a
sub-edit is active.  A character key appends regardless of modifiers. -/
def handle_attribute_editing (st : ItemEditorState) (k : EKey)
    (f : EditingField) : ItemEditorState :=
  match k with
  | EKey.esc => { st with editingField := none, inputBuffer := "" }
  | EKey.enter => editor_commit_edit st f
  | EKey.char c _ => { st with inputBuffer := st.inputBuffer.push c }
  | EKey.backspace => { st with inputBuffer := rustPop st.inputBuffer }
  | _ => st

/-- One keyboard event dispatched to `handle_item_editor_keys`
(keyboard.rs lines 358-509).  `none` means the editor was discarded
(`Esc` outside a sub-edit). -/
def editor_step (st : ItemEditorState) (k : EKey) : Option ItemEditorState :=
  match st.editingField with
  | some f => some (handle_attribute_editing st k f)
  | none =>
    match k with
    | EKey.esc => none
    | EKey.up =>
      some (if 0 < st.selectedAttributeIndex then
              { st with selectedAttributeIndex := st.selectedAttributeIndex - 1 }
            else st)
    | EKey.down =>
      some (if st.selectedAttributeIndex < st.attributes.length then
              { st with selectedAttributeIndex := st.selectedAttributeIndex + 1 }
            else st)
    | EKey.char c ctrl =>
      if ctrl && c == 's' then some st
      else if ctrl && c == 'n' then some (editor_add_attribute st)
      else if ctrl && c == 't' then some (editor_cycle_type st)
      else if ctrl && c == 'd' then some (editor_delete_attribute st)
      else if ctrl && c == 'k' then some (editor_start_key_edit st)
      else some st
    | EKey.enter => some (editor_start_value_edit st)
    | _ => some st

/-- `App::start_create_item` (app.rs lines 295-323). -/
def start_create_item (tbl : DynamoTable) : ItemEditorState :=
  let attrs :=
    [(tbl.hashKey.name, AttributeValue.str "")] ++
      (match tbl.rangeKey with
       | some rk => [(rk.name, AttributeValue.str "")]
       | none => [])
  { mode := EditorMode.create
    tableName := tbl.name
    hashKeySchema := tbl.hashKey
    rangeKeySchema := tbl.rangeKey
    attributes := attrs
    selectedAttributeIndex := 0
    editingField := none
    inputBuffer := "" }

/-- Key test of the `start_edit_item` sort, on a table. -/
def table_is_key (tbl : DynamoTable) (n : String) : Bool :=
  n == tbl.hashKey.name ||
    (match tbl.rangeKey with
     | some k => n == k.name
     | none => false)

/-- Lexicographic comparison of character sequences by code point. -/
def chars_cmp : List Char → List Char → Ordering
  | [], [] => Ordering.eq
  | [], _ :: _ => Ordering.lt
  | _ :: _, [] => Ordering.gt
  | a :: as, b :: bs =>
    if a.toNat < b.toNat then Ordering.lt
    else if b.toNat < a.toNat then Ordering.gt
    else chars_cmp as bs

/-- Model of Rust `Ord::cmp` on `String` (byte-lexicographic, which equals
code-point-lexicographic for valid UTF-8). -/
def str_cmp (a b : String) : Ordering :=
  chars_cmp a.data b.data

/-- The comparator passed to `attributes.sort_by` in `App::start_edit_item`
(app.rs lines 330-341): key rows sort before non-key rows, ties by name. -/
def attr_cmp (tbl : DynamoTable) (a b : String × AttributeValue) : Ordering :=
  match table_is_key tbl a.1, table_is_key tbl b.1 with
  | true, false => Ordering.lt
  | false, true => Ordering.gt
  | _, _ => str_cmp a.1 b.1

/-- The non-strict order induced by the comparator; Rust's stable
`sort_by` orders its output by exactly this relation. -/
def attr_le (tbl : DynamoTable) (a b : String × AttributeValue) : Prop :=
  attr_cmp tbl a b ≠ Ordering.gt

instance (tbl : DynamoTable) : DecidableRel (attr_le tbl) := fun a b =>
  inferInstanceAs (Decidable (attr_cmp tbl a b ≠ Ordering.gt))

/-- `App::start_edit_item` (app.rs lines 325-354): the record's attribute
pairs sorted by `attr_cmp` (modelled by the stable `insertionSort`; Rust's
`sort_by` is also stable, and with a total transitive comparator the two
stable sorts coincide), selection at 0, no sub-edit. -/
def start_edit_item (tbl : DynamoTable)
    (itemAttrs : List (String × AttributeValue)) : ItemEditorState :=
  { mode := EditorMode.edit
    tableName := tbl.name
    hashKeySchema := tbl.hashKey
    rangeKeySchema := tbl.rangeKey
    attributes := List.insertionSort (attr_le tbl) itemAttrs
    selectedAttributeIndex := 0
    editingField := none
    inputBuffer := "" }

/-- The region-selector slice of `App::new` (app.rs lines 216-240): tables
view, region `us-east-1`, full catalog, empty filter, default (empty)
`ListState` selection. -/
def initial_region_app : RegionApp :=
  { state := AppState.regularTablesView
    currentRegion := "us-east-1"
    availableRegions := awsRegions
    regionFilter := ""
    filteredRegions := awsRegions
    regionSelectorSelected := none }

/-- Claim-side definition, following the spec's words for §4.4 RegionSelector
filtering ("attempt to compile the filter text as a regular expression; if it
compiles, keep catalog entries it matches"), specialised to the concrete
filter text `"."`: that text compiles as a regular expression whose standard
(unanchored-search) semantics match every string containing at least one
character. -/
def dot_regex_matches (s : String) : Bool :=
  !s.isEmpty

/-- Editor states whose pending key-rename (if any) targets a non-key row.
`Ctrl+K` only enters the `EditingKey` sub-state on a selected row whose name
passes the key-protection check, and no editing-mode command moves the
selection or the attribute list, so every editor state reachable from the
constructors satisfies this. -/
def KeyEditSafe (st : ItemEditorState) : Prop :=
  st.editingField = some EditingField.key →
    ∃ kv, st.attributes[st.selectedAttributeIndex]? = some kv ∧
      is_key_name st.hashKeySchema st.rangeKeySchema kv.1 = false

/-! ## Theorems -/

/-! ### Wizard validation and commit (claims C4, C5) -/

theorem utf8ByteSize_empty : ("" : String).utf8ByteSize = 0 := rfl

theorem validate_basic_ok_iff (ws : WizardState) :
    validate_basic_config ws = Except.ok () ↔
      (3 ≤ ws.tableName.utf8ByteSize ∧ ws.tableName.utf8ByteSize ≤ 255 ∧
        ws.hashKeyName ≠ "" ∧ (ws.hasRangeKey = true → ws.rangeKeyName ≠ "")) := by
  unfold validate_basic_config
  constructor
  · intro h
    split at h
    · cases h
    · split at h
      · cases h
      · split at h
        · cases h
        · split at h
          · cases h
          · rename_i h1 h2 h3 h4
            refine ⟨by omega, by omega, ?_, ?_⟩
            · intro he
              exact h3 ((String.isEmpty_iff _).mpr he)
            · intro hflag hre
              exact h4 ⟨hflag, (String.isEmpty_iff _).mpr hre⟩
  · rintro ⟨h3le, h255, hhash, hrange⟩
    split
    · rename_i hc
      rw [String.isEmpty_iff] at hc
      rw [hc, utf8ByteSize_empty] at h3le
      omega
    · split
      · rename_i hc; omega
      · split
        · rename_i hc
          exact absurd ((String.isEmpty_iff _).mp hc) hhash
        · split
          · rename_i hc
            exact absurd ((String.isEmpty_iff _).mp hc.2) (hrange hc.1)
          · rfl

theorem validate_basic_error_ne (ws : WizardState) (e : String)
    (h : validate_basic_config ws = Except.error e) : e ≠ "" := by
  unfold validate_basic_config at h
  split at h
  · cases h; decide
  · split at h
    · cases h; decide
    · split at h
      · cases h; decide
      · split at h
        · cases h; decide
        · cases h

/-- Claim C5: at the BasicConfig step, Enter advances the wizard to
BillingConfig exactly when the table name's byte length is in [3,255], the
hash-key name is non-empty and, when the range key is enabled, the range-key
name is non-empty; on failure the wizard state is unchanged and the status
message is set to the (non-empty) validation error. -/
theorem wizard_basic_config_advance (ws : WizardState) (status : String)
    (hstep : ws.step = WizardStep.basicConfig) :
    ((handle_wizard_enter ws status).1.step = WizardStep.billingConfig ↔
      (3 ≤ ws.tableName.utf8ByteSize ∧ ws.tableName.utf8ByteSize ≤ 255 ∧
        ws.hashKeyName ≠ "" ∧ (ws.hasRangeKey = true → ws.rangeKeyName ≠ ""))) ∧
    (¬ (3 ≤ ws.tableName.utf8ByteSize ∧ ws.tableName.utf8ByteSize ≤ 255 ∧
          ws.hashKeyName ≠ "" ∧ (ws.hasRangeKey = true → ws.rangeKeyName ≠ "")) →
      (handle_wizard_enter ws status).1 = ws ∧
        (handle_wizard_enter ws status).2 ≠ "" ∧
        validate_basic_config ws = Except.error (handle_wizard_enter ws status).2) := by
  unfold handle_wizard_enter
  rw [hstep]
  cases hval : validate_basic_config ws with
  | error e =>
    have hP : ¬ (3 ≤ ws.tableName.utf8ByteSize ∧ ws.tableName.utf8ByteSize ≤ 255 ∧
        ws.hashKeyName ≠ "" ∧ (ws.hasRangeKey = true → ws.rangeKeyName ≠ "")) := by
      rw [← validate_basic_ok_iff ws, hval]; simp
    refine ⟨?_, fun _ => ⟨rfl, validate_basic_error_ne ws e hval, rfl⟩⟩
    simp only [hstep]
    constructor
    · intro h; cases h
    · intro h; exact absurd h hP
  | ok u =>
    cases u
    have hP : (3 ≤ ws.tableName.utf8ByteSize ∧ ws.tableName.utf8ByteSize ≤ 255 ∧
        ws.hashKeyName ≠ "" ∧ (ws.hasRangeKey = true → ws.rangeKeyName ≠ "")) := by
      rw [← validate_basic_ok_iff ws, hval]
    exact ⟨by simpa using hP, fun h => absurd hP h⟩

/-- Witness for C5: the concrete Scenario A states.  Table name `"ab"`
(with hash key `"id"`) does not advance and sets the documented length
error; table name `"orders"` advances to BillingConfig. -/
theorem wizard_basic_config_advance_witness :
    (handle_wizard_enter { WizardState.new with tableName := "ab", hashKeyName := "id" } "").1
        = { WizardState.new with tableName := "ab", hashKeyName := "id" } ∧
    (handle_wizard_enter { WizardState.new with tableName := "ab", hashKeyName := "id" } "").2
        = "Table name must be 3-255 characters" ∧
    (handle_wizard_enter { WizardState.new with tableName := "orders", hashKeyName := "id" } "").1.step
        = WizardStep.billingConfig := by
  have h1 := wizard_basic_config_advance
    { WizardState.new with tableName := "ab", hashKeyName := "id" } "" rfl
  have h2 := wizard_basic_config_advance
    { WizardState.new with tableName := "orders", hashKeyName := "id" } "" rfl
  refine ⟨(h1.2 (by decide)).1, by decide, h2.1.mpr (by decide)⟩

/-- Claim C4: committing a Provisioned wizard configuration parses the
capacity texts at commit time, and the throughput actually placed on the
create-table request substitutes the fixed default 5 for any capacity text
that does not parse as an integer. -/
theorem provisioned_capacity_default (ws : WizardState)
    (hmode : ws.billingMode = BillingMode.provisioned) :
    ∃ r w, create_table_throughput (to_table_config ws) = some (r, w) ∧
      (parse_i64 ws.readCapacity = none → r = 5) ∧
      (∀ n, parse_i64 ws.readCapacity = some n → r = n) ∧
      (parse_i64 ws.writeCapacity = none → w = 5) ∧
      (∀ n, parse_i64 ws.writeCapacity = some n → w = n) := by
  refine ⟨(parse_i64 ws.readCapacity).getD 5, (parse_i64 ws.writeCapacity).getD 5,
    ?_, ?_, ?_, ?_, ?_⟩
  · simp [create_table_throughput, to_table_config, hmode]
  · intro h; rw [h]; rfl
  · intro n h; rw [h]; rfl
  · intro h; rw [h]; rfl
  · intro n h; rw [h]; rfl

/-- Witness for C4: a Provisioned wizard whose read-capacity text `"x9"`
does not parse receives the default read capacity 5, while the parsable
write-capacity text `"7"` is used as written. -/
theorem provisioned_capacity_default_witness :
    create_table_throughput (to_table_config
      { WizardState.new with
          billingMode := BillingMode.provisioned
          readCapacity := "x9"
          writeCapacity := "7" }) = some (5, 7) := by
  obtain ⟨r, w, hrw, hr5, -, -, hw⟩ := provisioned_capacity_default
    { WizardState.new with
        billingMode := BillingMode.provisioned
        readCapacity := "x9"
        writeCapacity := "7" } rfl
  rw [hrw, hr5 (by decide), hw 7 (by decide)]

/-! ### Region selector filtering and selection (claims C2, C3) -/

theorem update_region_filter_filtered (app : RegionApp) (f : String) :
    (update_region_filter app f).filteredRegions =
      app.availableRegions.filter fun r =>
        if f.isEmpty then true else strContains r f := by
  cases hemp : (app.availableRegions.filter fun r =>
      if f.isEmpty then true else strContains r f).isEmpty with
  | true =>
    simp only [update_region_filter, hemp]
    rfl
  | false =>
    simp only [update_region_filter, hemp]
    rfl

theorem region_filter_pred_iff (f r : String) :
    ((if f.isEmpty then true else strContains r f) = true) ↔
      (f = "" ∨ strContains r f = true) := by
  by_cases hf : f.isEmpty
  · have hf0 : f = "" := (String.isEmpty_iff _).mp hf
    constructor
    · intro _; exact Or.inl hf0
    · intro _; rw [hf]; rfl
  · have hf' : f ≠ "" := fun he => hf ((String.isEmpty_iff _).mpr he)
    have hif : f.isEmpty = false := by
      cases hx : f.isEmpty
      · rfl
      · exact absurd hx hf
    constructor
    · intro hp; rw [hif] at hp; exact Or.inr hp
    · intro hor
      rw [hif]
      cases hor with
      | inl he => exact absurd he hf'
      | inr hs => exact hs

/-- Counterexample to claim C2 as stated.  The filter text `"."` compiles as
a regular expression and, per the claim's regex branch, the filtered sequence
should then be every catalog entry the expression matches — which is the
whole (non-empty) catalog, since `"."` matches any non-empty string.  The
code instead performs a literal substring match and returns the empty
sequence, because no region name contains a literal dot. -/
theorem region_filter_regex_claim_cex :
    (update_region_filter (open_region_selector initial_region_app) ".").filteredRegions
        = [] ∧
    awsRegions.filter dot_regex_matches = awsRegions ∧
    awsRegions ≠ [] := by
  refine ⟨by decide, by decide, by decide⟩

/-- Claim C2 as amended: `App::update_region_filter` never attempts regular
expressions; the filtered sequence is exactly the catalog entries containing
the filter text as a case-sensitive literal substring (an empty filter keeps
everything).  In particular the invalid-regular-expression text `"]["`
likewise receives literal substring treatment (yielding the empty sequence on
this catalog) without erroring, and the match is case-sensitive (`"us"`
matches four regions, `"US"` none). -/
theorem region_filter_literal_substring :
    (∀ (app : RegionApp) (filter r : String),
      r ∈ (update_region_filter app filter).filteredRegions ↔
        r ∈ app.availableRegions ∧ (filter = "" ∨ strContains r filter = true)) ∧
    (update_region_filter (open_region_selector initial_region_app) "][").filteredRegions
        = [] ∧
    (update_region_filter (open_region_selector initial_region_app) "][").regionFilter
        = "][" ∧
    (update_region_filter (open_region_selector initial_region_app) "us").filteredRegions
        = ["us-east-1", "us-east-2", "us-west-1", "us-west-2"] ∧
    (update_region_filter (open_region_selector initial_region_app) "US").filteredRegions
        = [] := by
  refine ⟨?_, by decide, by decide, by decide, by decide⟩
  intro app filter r
  rw [update_region_filter_filtered, List.mem_filter]
  constructor
  · rintro ⟨hm, hp⟩; exact ⟨hm, (region_filter_pred_iff filter r).mp hp⟩
  · rintro ⟨hm, hp⟩; exact ⟨hm, (region_filter_pred_iff filter r).mpr hp⟩

/-- Witness for the amended C2: the general membership characterisation at a
concrete point — `"us-east-1"` survives the filter `"east"`. -/
theorem region_filter_literal_substring_witness :
    "us-east-1" ∈
      (update_region_filter initial_region_app "east").filteredRegions := by
  exact (region_filter_literal_substring.1 initial_region_app "east" "us-east-1").mpr
    (by decide)

/-- Counterexample to claim C3 as stated.  Opening the selector and typing a
filter that matches nothing leaves the filtered sequence empty, but the
selection is NOT cleared: `update_region_filter` only touches the selection
when the filtered sequence is non-empty, so the previously set index 0
survives. -/
theorem region_empty_filter_selection_cex :
    (update_region_filter (open_region_selector initial_region_app) "zzz").filteredRegions
        = [] ∧
    (update_region_filter (open_region_selector initial_region_app) "zzz").regionSelectorSelected
        = some 0 := by
  refine ⟨by decide, by decide⟩

/-- Claim C3 as amended: when refiltering produces an empty filtered
sequence the selection is left unchanged (not cleared), and confirm-selection
(`Enter`) in any state with an empty filtered sequence is a no-op — the
current region, the `AppState` and the whole selector state are unchanged. -/
theorem region_empty_filter_enter_noop :
    (∀ (app : RegionApp) (f : String),
      (update_region_filter app f).filteredRegions = [] →
        (update_region_filter app f).regionSelectorSelected
          = app.regionSelectorSelected) ∧
    (∀ app : RegionApp, app.filteredRegions = [] →
      handle_region_selector_key app EKey.enter = app) := by
  constructor
  · intro app f h
    rw [update_region_filter_filtered] at h
    cases hemp : (app.availableRegions.filter fun r =>
        if f.isEmpty then true else strContains r f).isEmpty with
    | true =>
      simp only [update_region_filter, hemp]
      rfl
    | false =>
      rw [h] at hemp
      exact absurd hemp (by decide)
  · intro app h
    unfold handle_region_selector_key
    cases hsel : app.regionSelectorSelected with
    | none => rfl
    | some i =>
      rw [h]
      simp

/-- Witness for the amended C3: both conjuncts at the concrete
selector state reached by opening the selector and typing `"zzz"`. -/
theorem region_empty_filter_enter_noop_witness :
    (update_region_filter (open_region_selector initial_region_app) "zzz").regionSelectorSelected
        = (open_region_selector initial_region_app).regionSelectorSelected ∧
    handle_region_selector_key
        (update_region_filter (open_region_selector initial_region_app) "zzz") EKey.enter
      = update_region_filter (open_region_selector initial_region_app) "zzz" := by
  constructor
  · exact region_empty_filter_enter_noop.1 (open_region_selector initial_region_app) "zzz"
      (by decide)
  · exact region_empty_filter_enter_noop.2
      (update_region_filter (open_region_selector initial_region_app) "zzz") (by decide)

/-! ### Item editor: selection-bound invariant (claim C6) -/

theorem editor_commit_edit_shape (st : ItemEditorState) (f : EditingField) :
    (editor_commit_edit st f).selectedAttributeIndex = st.selectedAttributeIndex ∧
    (editor_commit_edit st f).attributes.length = st.attributes.length := by
  unfold editor_commit_edit
  cases hq : st.attributes[st.selectedAttributeIndex]? with
  | none => exact ⟨rfl, rfl⟩
  | some kv =>
    obtain ⟨key, curval⟩ := kv
    cases f
    · exact ⟨rfl, by simp⟩
    · exact ⟨rfl, by simp⟩
    · exact ⟨rfl, rfl⟩

theorem handle_attribute_editing_shape (st : ItemEditorState) (k : EKey)
    (f : EditingField) :
    (handle_attribute_editing st k f).selectedAttributeIndex
        = st.selectedAttributeIndex ∧
    (handle_attribute_editing st k f).attributes.length
        = st.attributes.length := by
  unfold handle_attribute_editing
  cases k
  · exact ⟨rfl, rfl⟩
  · exact ⟨rfl, rfl⟩
  · exact editor_commit_edit_shape st f
  · exact ⟨rfl, rfl⟩
  · exact ⟨rfl, rfl⟩
  · exact ⟨rfl, rfl⟩
  · exact ⟨rfl, rfl⟩

theorem editor_add_attribute_shape (st : ItemEditorState) :
    (editor_add_attribute st).attributes.length = st.attributes.length + 1 ∧
    (editor_add_attribute st).selectedAttributeIndex = st.attributes.length := by
  constructor
  · simp [editor_add_attribute]
  · simp [editor_add_attribute]

theorem editor_cycle_type_shape (st : ItemEditorState) :
    (editor_cycle_type st).selectedAttributeIndex = st.selectedAttributeIndex ∧
    (editor_cycle_type st).attributes.length = st.attributes.length := by
  unfold editor_cycle_type
  cases hq : st.attributes[st.selectedAttributeIndex]? with
  | none => exact ⟨rfl, rfl⟩
  | some kv =>
    obtain ⟨key, v⟩ := kv
    by_cases hk : is_key_name st.hashKeySchema st.rangeKeySchema key = true
    · simp [hk]
    · simp [hk]

theorem editor_start_value_edit_shape (st : ItemEditorState) :
    (editor_start_value_edit st).selectedAttributeIndex
        = st.selectedAttributeIndex ∧
    (editor_start_value_edit st).attributes = st.attributes := by
  unfold editor_start_value_edit
  cases hq : st.attributes[st.selectedAttributeIndex]? with
  | none => exact ⟨rfl, rfl⟩
  | some kv => obtain ⟨key, v⟩ := kv; exact ⟨rfl, rfl⟩

theorem editor_start_key_edit_shape (st : ItemEditorState) :
    (editor_start_key_edit st).selectedAttributeIndex
        = st.selectedAttributeIndex ∧
    (editor_start_key_edit st).attributes = st.attributes := by
  unfold editor_start_key_edit
  cases hq : st.attributes[st.selectedAttributeIndex]? with
  | none => exact ⟨rfl, rfl⟩
  | some kv =>
    obtain ⟨key, v⟩ := kv
    by_cases hk : is_key_name st.hashKeySchema st.rangeKeySchema key = true
    · simp [hk]
    · simp [hk]

theorem editor_delete_attribute_sel_le (st : ItemEditorState)
    (h : st.selectedAttributeIndex ≤ st.attributes.length) :
    (editor_delete_attribute st).selectedAttributeIndex ≤
      (editor_delete_attribute st).attributes.length := by
  unfold editor_delete_attribute
  cases hq : st.attributes[st.selectedAttributeIndex]? with
  | none => exact h
  | some kv =>
    obtain ⟨key, v⟩ := kv
    by_cases hk : is_key_name st.hashKeySchema st.rangeKeySchema key = true
    · simp only [hk, if_true]
      exact h
    · simp only [hk, Bool.false_eq_true, if_false]
      have hlt : st.selectedAttributeIndex < st.attributes.length :=
        List.getElem?_eq_some.mp hq |>.1
      have hlen : (st.attributes.eraseIdx st.selectedAttributeIndex).length
          = st.attributes.length - 1 := by
        rw [List.length_eraseIdx]
        simp [hlt]
      split
      · omega
      · rename_i hcond
        rw [hlen]
        have : ¬((st.attributes.eraseIdx st.selectedAttributeIndex).length
            ≤ st.selectedAttributeIndex) ∨
            (st.attributes.eraseIdx st.selectedAttributeIndex).isEmpty := by
          by_cases h1 : (st.attributes.eraseIdx st.selectedAttributeIndex).length
              ≤ st.selectedAttributeIndex
          · right
            by_cases h2 : (st.attributes.eraseIdx st.selectedAttributeIndex).isEmpty
            · exact h2
            · exact absurd ⟨h1, h2⟩ hcond
          · left; exact h1
        cases this with
        | inl h1 => omega
        | inr h2 =>
          have : (st.attributes.eraseIdx st.selectedAttributeIndex).length = 0 :=
            List.isEmpty_iff_length_eq_zero.mp h2
          omega

/-- Claim C6: in every ItemEditorState reachable by editor commands the
selection index stays at most attributes.len() (the inclusive virtual add-row
boundary).  Conjuncts: the bound is preserved by every editor step; move-up
at 0 and move-down at attributes.len() are no-ops (no wraparound);
add-attribute appends and selects the new last real row; and both editor
entry points establish the bound (selection 0). -/
theorem editor_selection_bound :
    (∀ (st : ItemEditorState) (k : EKey) (st' : ItemEditorState),
      editor_step st k = some st' →
      st.selectedAttributeIndex ≤ st.attributes.length →
      st'.selectedAttributeIndex ≤ st'.attributes.length) ∧
    (∀ st : ItemEditorState, st.editingField = none →
      st.selectedAttributeIndex = 0 → editor_step st EKey.up = some st) ∧
    (∀ st : ItemEditorState, st.editingField = none →
      st.selectedAttributeIndex = st.attributes.length →
      editor_step st EKey.down = some st) ∧
    (∀ st : ItemEditorState, st.editingField = none →
      editor_step st (EKey.char 'n' true) = some (editor_add_attribute st) ∧
      (editor_add_attribute st).selectedAttributeIndex + 1
          = (editor_add_attribute st).attributes.length ∧
      (editor_add_attribute st).attributes
          = st.attributes ++ [("new_attribute", AttributeValue.str "")]) ∧
    (∀ tbl : DynamoTable,
      (start_create_item tbl).selectedAttributeIndex
          ≤ (start_create_item tbl).attributes.length) ∧
    (∀ (tbl : DynamoTable) (itemAttrs : List (String × AttributeValue)),
      (start_edit_item tbl itemAttrs).selectedAttributeIndex
          ≤ (start_edit_item tbl itemAttrs).attributes.length) := by
  refine ⟨?_, ?_, ?_, ?_, ?_, ?_⟩
  · intro st k st' hstep h
    unfold editor_step at hstep
    cases hed : st.editingField with
    | some f =>
      rw [hed] at hstep
      injection hstep with he
      rw [← he]
      obtain ⟨h1, h2⟩ := handle_attribute_editing_shape st k f
      omega
    | none =>
      rw [hed] at hstep
      cases k with
      | esc => cases hstep
      | up =>
        injection hstep with he
        rw [← he]
        split
        · simp
          omega
        · exact h
      | down =>
        injection hstep with he
        rw [← he]
        split
        · rename_i hlt
          simp
          omega
        · exact h
      | enter =>
        injection hstep with he
        rw [← he]
        obtain ⟨h1, h2⟩ := editor_start_value_edit_shape st
        rw [h1, h2]
        exact h
      | backspace =>
        injection hstep with he
        rw [← he]
        exact h
      | other =>
        injection hstep with he
        rw [← he]
        exact h
      | char c ctrl =>
        have hstep' : (if ctrl && c == 's' then some st
            else if ctrl && c == 'n' then some (editor_add_attribute st)
            else if ctrl && c == 't' then some (editor_cycle_type st)
            else if ctrl && c == 'd' then some (editor_delete_attribute st)
            else if ctrl && c == 'k' then some (editor_start_key_edit st)
            else some st) = some st' := hstep
        clear hstep
        split at hstep'
        · injection hstep' with he; rw [← he]; exact h
        · split at hstep'
          · injection hstep' with he
            rw [← he]
            obtain ⟨h1, h2⟩ := editor_add_attribute_shape st
            omega
          · split at hstep'
            · injection hstep' with he
              rw [← he]
              obtain ⟨h1, h2⟩ := editor_cycle_type_shape st
              omega
            · split at hstep'
              · injection hstep' with he
                rw [← he]
                exact editor_delete_attribute_sel_le st h
              · split at hstep'
                · injection hstep' with he
                  rw [← he]
                  obtain ⟨h1, h2⟩ := editor_start_key_edit_shape st
                  rw [h1, h2]
                  exact h
                · injection hstep' with he
                  rw [← he]
                  exact h
  · intro st hed hsel
    unfold editor_step
    rw [hed, hsel]
    rfl
  · intro st hed hsel
    unfold editor_step
    rw [hed, hsel]
    simp
  · intro st hed
    refine ⟨?_, ?_, ?_⟩
    · unfold editor_step
      rw [hed]
      rfl
    · obtain ⟨h1, h2⟩ := editor_add_attribute_shape st
      omega
    · simp [editor_add_attribute]
  · intro tbl
    simp [start_create_item]
  · intro tbl itemAttrs
    simp [start_edit_item]

/-- Witness for C6: one concrete preservation step (delete on a two-row
editor clamps the selection) plus the boundary no-ops at a concrete state. -/
theorem editor_selection_bound_witness :
    (editor_step
        { mode := EditorMode.create, tableName := "t"
          hashKeySchema := { name := "id", keyType := AttributeType.string }
          rangeKeySchema := none
          attributes := [("id", AttributeValue.str ""),
                         ("extra", AttributeValue.str "x")]
          selectedAttributeIndex := 1, editingField := none, inputBuffer := "" }
        (EKey.char 'd' true)).elim False
      (fun st' => st'.selectedAttributeIndex ≤ st'.attributes.length) := by
  have h := editor_selection_bound.1
    { mode := EditorMode.create, tableName := "t"
      hashKeySchema := { name := "id", keyType := AttributeType.string }
      rangeKeySchema := none
      attributes := [("id", AttributeValue.str ""),
                     ("extra", AttributeValue.str "x")]
      selectedAttributeIndex := 1, editingField := none, inputBuffer := "" }
    (EKey.char 'd' true)
  exact h _ rfl (by decide)

/-! ### Item editor: add-then-delete (claim C9) -/

theorem eraseIdx_append_singleton {α : Type} (l : List α) (x : α) :
    (l ++ [x]).eraseIdx l.length = l := by
  induction l with
  | nil => rfl
  | cons a t ih => simp [List.eraseIdx, ih]

theorem editor_add_attribute_editing (st : ItemEditorState) :
    (editor_add_attribute st).editingField = st.editingField := rfl

theorem delete_of_add (st : ItemEditorState)
    (hkey : is_key_name st.hashKeySchema st.rangeKeySchema "new_attribute" = false) :
    (editor_delete_attribute (editor_add_attribute st)).attributes
        = st.attributes ∧
    (editor_delete_attribute (editor_add_attribute st)).selectedAttributeIndex
        ≤ st.attributes.length := by
  have hget : (editor_add_attribute st).attributes[(editor_add_attribute st).selectedAttributeIndex]?
      = some ("new_attribute", AttributeValue.str "") := by
    have hsel : (editor_add_attribute st).selectedAttributeIndex
        = st.attributes.length := by
      simp [editor_add_attribute]
    rw [hsel]
    exact List.getElem?_concat_length _ _
  unfold editor_delete_attribute
  rw [hget]
  have hk1 : is_key_name (editor_add_attribute st).hashKeySchema
      (editor_add_attribute st).rangeKeySchema "new_attribute" = false := hkey
  dsimp only
  rw [hk1]
  simp only [Bool.false_eq_true, if_false]
  have hsel : (editor_add_attribute st).selectedAttributeIndex
      = st.attributes.length := by
    simp [editor_add_attribute]
  have herase : (editor_add_attribute st).attributes.eraseIdx
      (editor_add_attribute st).selectedAttributeIndex = st.attributes := by
    rw [hsel]
    exact eraseIdx_append_singleton _ _
  rw [herase, hsel]
  refine ⟨rfl, ?_⟩
  split
  · omega
  · omega

/-- Claim C9 as amended: from any editor state with no sub-edit active and
whose key schemas are not themselves named `"new_attribute"`, add-attribute
followed immediately by delete-attribute on the newly added row returns the
attribute sequence to its prior content and length, with the selection at a
valid index. -/
theorem add_then_delete_restores (st : ItemEditorState)
    (hed : st.editingField = none)
    (hkey : is_key_name st.hashKeySchema st.rangeKeySchema "new_attribute" = false) :
    ∃ st₁ st₂, editor_step st (EKey.char 'n' true) = some st₁ ∧
      editor_step st₁ (EKey.char 'd' true) = some st₂ ∧
      st₂.attributes = st.attributes ∧
      st₂.selectedAttributeIndex ≤ st₂.attributes.length := by
  refine ⟨editor_add_attribute st,
    editor_delete_attribute (editor_add_attribute st), ?_, ?_, ?_, ?_⟩
  · unfold editor_step
    rw [hed]
    rfl
  · unfold editor_step
    rw [editor_add_attribute_editing, hed]
    rfl
  · exact (delete_of_add st hkey).1
  · rw [(delete_of_add st hkey).1]
    exact (delete_of_add st hkey).2

/-- Witness for the amended C9 at a concrete state: an editor on hash key
`"id"` with one extra row; add then delete restores the two-row sequence. -/
theorem add_then_delete_restores_witness :
    ∃ st₁ st₂,
      editor_step
          { mode := EditorMode.create, tableName := "t"
            hashKeySchema := { name := "id", keyType := AttributeType.string }
            rangeKeySchema := none
            attributes := [("id", AttributeValue.str "1")]
            selectedAttributeIndex := 0, editingField := none, inputBuffer := "" }
          (EKey.char 'n' true) = some st₁ ∧
      editor_step st₁ (EKey.char 'd' true) = some st₂ ∧
      st₂.attributes = [("id", AttributeValue.str "1")] ∧
      st₂.selectedAttributeIndex ≤ st₂.attributes.length := by
  exact add_then_delete_restores
    { mode := EditorMode.create, tableName := "t"
      hashKeySchema := { name := "id", keyType := AttributeType.string }
      rangeKeySchema := none
      attributes := [("id", AttributeValue.str "1")]
      selectedAttributeIndex := 0, editingField := none, inputBuffer := "" }
    rfl (by decide)

/-- Counterexample to claim C9 as stated: on a (reachable) editor whose hash
key is itself named `"new_attribute"` — the creation wizard accepts any
non-empty hash-key name — delete-attribute on the newly added row is blocked
by the primary-key protection, so the sequence keeps the extra row. -/
theorem add_then_delete_restores_cex :
    ∃ st₁, editor_step
        (start_create_item
          { name := "t"
            hashKey := { name := "new_attribute", keyType := AttributeType.string }
            rangeKey := none, billingMode := BillingMode.onDemand
            readCapacity := none, writeCapacity := none, tableStatus := ""
            itemCount := none, tableSizeBytes := none, region := "" })
        (EKey.char 'n' true) = some st₁ ∧
      editor_step st₁ (EKey.char 'd' true) = some st₁ ∧
      st₁.attributes.length = 2 ∧
      (start_create_item
          { name := "t"
            hashKey := { name := "new_attribute", keyType := AttributeType.string }
            rangeKey := none, billingMode := BillingMode.onDemand
            readCapacity := none, writeCapacity := none, tableStatus := ""
            itemCount := none, tableSizeBytes := none, region := "" }).attributes.length
        = 1 := by
  refine ⟨_, rfl, ?_, by decide, by decide⟩
  rfl

/-! ### Item editor: primary-key protection (claim C1) -/

theorem set_self_of_getElem? {α : Type} (l : List α) (i : Nat) (x : α)
    (h : l[i]? = some x) : l.set i x = l := by
  induction l generalizing i with
  | nil => cases h
  | cons a t ih =>
    cases i with
    | zero =>
      simp at h
      rw [h]
      rfl
    | succ j =>
      simp at h
      simp [List.set, ih j h]

theorem mem_set_of_getElem?_ne {α : Type} (l : List α) (i : Nat) (x b a : α)
    (h : l[i]? = some b) (hne : b ≠ a) (ha : a ∈ l) : a ∈ l.set i x := by
  induction l generalizing i with
  | nil => cases h
  | cons c t ih =>
    cases i with
    | zero =>
      simp at h
      subst h
      cases ha with
      | head => exact absurd rfl hne
      | tail _ hmem => exact List.mem_cons_of_mem _ hmem
    | succ j =>
      simp at h
      cases ha with
      | head => exact List.mem_cons_self _ _
      | tail _ hmem => exact List.mem_cons_of_mem _ (ih j h hmem)

theorem mem_eraseIdx_of_getElem?_ne {α : Type} (l : List α) (i : Nat) (b a : α)
    (h : l[i]? = some b) (hne : b ≠ a) (ha : a ∈ l) : a ∈ l.eraseIdx i := by
  induction l generalizing i with
  | nil => cases h
  | cons c t ih =>
    cases i with
    | zero =>
      simp at h
      subst h
      cases ha with
      | head => exact absurd rfl hne
      | tail _ hmem => simpa [List.eraseIdx] using hmem
    | succ j =>
      simp at h
      cases ha with
      | head => simp [List.eraseIdx]
      | tail _ hmem => simp [List.eraseIdx, ih j h hmem]

theorem map_eraseIdx {α β : Type} (f : α → β) (l : List α) (i : Nat) :
    (l.eraseIdx i).map f = (l.map f).eraseIdx i := by
  induction l generalizing i with
  | nil => rfl
  | cons c t ih =>
    cases i with
    | zero => rfl
    | succ j => simp [List.eraseIdx, ih j]

theorem editor_commit_edit_editing (st : ItemEditorState) (f : EditingField) :
    (editor_commit_edit st f).editingField = none := by
  unfold editor_commit_edit
  cases st.attributes[st.selectedAttributeIndex]? with
  | none => rfl
  | some kv =>
    obtain ⟨key, v⟩ := kv
    cases f <;> rfl

theorem editor_cycle_type_editing (st : ItemEditorState) :
    (editor_cycle_type st).editingField = st.editingField := by
  unfold editor_cycle_type
  cases st.attributes[st.selectedAttributeIndex]? with
  | none => rfl
  | some kv =>
    obtain ⟨key, v⟩ := kv
    by_cases hk : is_key_name st.hashKeySchema st.rangeKeySchema key = true
    · simp [hk]
    · simp [hk]

theorem editor_delete_attribute_editing (st : ItemEditorState) :
    (editor_delete_attribute st).editingField = st.editingField := by
  unfold editor_delete_attribute
  cases st.attributes[st.selectedAttributeIndex]? with
  | none => rfl
  | some kv =>
    obtain ⟨key, v⟩ := kv
    by_cases hk : is_key_name st.hashKeySchema st.rangeKeySchema key = true
    · simp [hk]
    · simp [hk]

theorem keyEditSafe_of_none (st : ItemEditorState)
    (h : st.editingField = none) : KeyEditSafe st :=
  fun hk => Option.noConfusion (h.symm.trans hk)

theorem keyEditSafe_of_value (st : ItemEditorState)
    (h : st.editingField = some EditingField.value) : KeyEditSafe st :=
  fun hk => EditingField.noConfusion (Option.some.inj (h.symm.trans hk))

theorem editor_start_value_edit_editing (st : ItemEditorState) :
    (editor_start_value_edit st).editingField = st.editingField ∨
    (editor_start_value_edit st).editingField = some EditingField.value := by
  unfold editor_start_value_edit
  cases st.attributes[st.selectedAttributeIndex]? with
  | none => exact Or.inl rfl
  | some kv =>
    obtain ⟨key, v⟩ := kv
    exact Or.inr rfl

theorem editor_start_key_edit_safe (st : ItemEditorState)
    (hed : st.editingField = none) : KeyEditSafe (editor_start_key_edit st) := by
  unfold editor_start_key_edit
  cases hq : st.attributes[st.selectedAttributeIndex]? with
  | none => exact keyEditSafe_of_none _ hed
  | some kv =>
    obtain ⟨key, v⟩ := kv
    cases hk : is_key_name st.hashKeySchema st.rangeKeySchema key with
    | true =>
      simp only [hk, if_true]
      exact keyEditSafe_of_none _ hed
    | false =>
      simp only [hk, Bool.false_eq_true, if_false]
      intro _
      exact ⟨(key, v), hq, hk⟩

theorem editor_step_keyEditSafe (st : ItemEditorState) (k : EKey)
    (st' : ItemEditorState) (hstep : editor_step st k = some st')
    (hsafe : KeyEditSafe st) : KeyEditSafe st' := by
  unfold editor_step at hstep
  cases hed : st.editingField with
  | some f =>
    rw [hed] at hstep
    injection hstep with he
    rw [← he]
    unfold handle_attribute_editing
    cases k with
    | esc => exact keyEditSafe_of_none _ rfl
    | enter => exact keyEditSafe_of_none _ (editor_commit_edit_editing st f)
    | char c ctrl =>
      intro hk
      exact hsafe hk
    | backspace =>
      intro hk
      exact hsafe hk
    | up => exact hsafe
    | down => exact hsafe
    | other => exact hsafe
  | none =>
    rw [hed] at hstep
    cases k with
    | esc => cases hstep
    | up =>
      injection hstep with he
      rw [← he]
      split
      · exact keyEditSafe_of_none _ rfl
      · exact keyEditSafe_of_none _ hed
    | down =>
      injection hstep with he
      rw [← he]
      split
      · exact keyEditSafe_of_none _ rfl
      · exact keyEditSafe_of_none _ hed
    | enter =>
      injection hstep with he
      rw [← he]
      cases editor_start_value_edit_editing st with
      | inl h1 => exact keyEditSafe_of_none _ (h1.trans hed)
      | inr h2 => exact keyEditSafe_of_value _ h2
    | backspace =>
      injection hstep with he
      rw [← he]
      exact keyEditSafe_of_none _ hed
    | other =>
      injection hstep with he
      rw [← he]
      exact keyEditSafe_of_none _ hed
    | char c ctrl =>
      have hstep' : (if ctrl && c == 's' then some st
          else if ctrl && c == 'n' then some (editor_add_attribute st)
          else if ctrl && c == 't' then some (editor_cycle_type st)
          else if ctrl && c == 'd' then some (editor_delete_attribute st)
          else if ctrl && c == 'k' then some (editor_start_key_edit st)
          else some st) = some st' := hstep
      clear hstep
      split at hstep'
      · injection hstep' with he; rw [← he]; exact keyEditSafe_of_none _ hed
      · split at hstep'
        · injection hstep' with he
          rw [← he]
          exact keyEditSafe_of_none _ ((editor_add_attribute_editing st).trans hed)
        · split at hstep'
          · injection hstep' with he
            rw [← he]
            exact keyEditSafe_of_none _ ((editor_cycle_type_editing st).trans hed)
          · split at hstep'
            · injection hstep' with he
              rw [← he]
              exact keyEditSafe_of_none _
                ((editor_delete_attribute_editing st).trans hed)
            · split at hstep'
              · injection hstep' with he
                rw [← he]
                exact editor_start_key_edit_safe st hed
              · injection hstep' with he
                rw [← he]
                exact keyEditSafe_of_none _ hed

theorem key_name_mem_set_value (st : ItemEditorState) (key : String)
    (v newv : AttributeValue) (n : String)
    (hq : st.attributes[st.selectedAttributeIndex]? = some (key, v))
    (hmem : n ∈ st.attributes.map Prod.fst) :
    n ∈ (st.attributes.set st.selectedAttributeIndex (key, newv)).map Prod.fst := by
  rw [List.map_set]
  have hname : (st.attributes.map Prod.fst)[st.selectedAttributeIndex]? = some key := by
    rw [List.getElem?_map, hq]
    rfl
  rw [set_self_of_getElem? _ _ _ hname]
  exact hmem

theorem key_name_mem_rename (st : ItemEditorState) (key newkey : String)
    (v : AttributeValue) (n : String)
    (hq : st.attributes[st.selectedAttributeIndex]? = some (key, v))
    (hne : key ≠ n)
    (hmem : n ∈ st.attributes.map Prod.fst) :
    n ∈ (st.attributes.set st.selectedAttributeIndex (newkey, v)).map Prod.fst := by
  rw [List.map_set]
  have hname : (st.attributes.map Prod.fst)[st.selectedAttributeIndex]? = some key := by
    rw [List.getElem?_map, hq]
    rfl
  exact mem_set_of_getElem?_ne _ _ _ _ _ hname hne hmem

theorem key_name_mem_erase (st : ItemEditorState) (key : String)
    (v : AttributeValue) (n : String)
    (hq : st.attributes[st.selectedAttributeIndex]? = some (key, v))
    (hne : key ≠ n)
    (hmem : n ∈ st.attributes.map Prod.fst) :
    n ∈ ((st.attributes.eraseIdx st.selectedAttributeIndex).map Prod.fst) := by
  rw [map_eraseIdx]
  have hname : (st.attributes.map Prod.fst)[st.selectedAttributeIndex]? = some key := by
    rw [List.getElem?_map, hq]
    rfl
  exact mem_eraseIdx_of_getElem?_ne _ _ _ _ hname hne hmem

theorem is_key_name_ne (hash : KeySchema) (range : Option KeySchema)
    (key n : String)
    (hfalse : is_key_name hash range key = false)
    (htrue : is_key_name hash range n = true) : key ≠ n := by
  intro he
  rw [he] at hfalse
  rw [hfalse] at htrue
  cases htrue

theorem editor_step_key_name_mem (st : ItemEditorState) (k : EKey)
    (st' : ItemEditorState) (n : String)
    (hstep : editor_step st k = some st') (hsafe : KeyEditSafe st)
    (hkeyn : is_key_name st.hashKeySchema st.rangeKeySchema n = true)
    (hmem : n ∈ st.attributes.map Prod.fst) :
    n ∈ st'.attributes.map Prod.fst := by
  unfold editor_step at hstep
  cases hed : st.editingField with
  | some f =>
    rw [hed] at hstep
    injection hstep with he
    rw [← he]
    unfold handle_attribute_editing
    cases k with
    | esc => exact hmem
    | char c ctrl => exact hmem
    | backspace => exact hmem
    | up => exact hmem
    | down => exact hmem
    | other => exact hmem
    | enter =>
      unfold editor_commit_edit
      cases hq : st.attributes[st.selectedAttributeIndex]? with
      | none => exact hmem
      | some kv =>
        obtain ⟨key, v⟩ := kv
        cases f with
        | value =>
          dsimp only
          exact key_name_mem_set_value st key v _ n hq hmem
        | typeTag => exact hmem
        | key =>
          dsimp only
          obtain ⟨kv', hq', hk'⟩ := hsafe hed
          have hkv : kv' = (key, v) := Option.some.inj (hq'.symm.trans hq)
          rw [hkv] at hk'
          exact key_name_mem_rename st key st.inputBuffer v n hq
            (is_key_name_ne _ _ _ _ hk' hkeyn) hmem
  | none =>
    rw [hed] at hstep
    cases k with
    | esc => cases hstep
    | up =>
      injection hstep with he
      rw [← he]
      split
      · exact hmem
      · exact hmem
    | down =>
      injection hstep with he
      rw [← he]
      split
      · exact hmem
      · exact hmem
    | enter =>
      injection hstep with he
      rw [← he]
      rw [(editor_start_value_edit_shape st).2]
      exact hmem
    | backspace =>
      injection hstep with he
      rw [← he]
      exact hmem
    | other =>
      injection hstep with he
      rw [← he]
      exact hmem
    | char c ctrl =>
      have hstep' : (if ctrl && c == 's' then some st
          else if ctrl && c == 'n' then some (editor_add_attribute st)
          else if ctrl && c == 't' then some (editor_cycle_type st)
          else if ctrl && c == 'd' then some (editor_delete_attribute st)
          else if ctrl && c == 'k' then some (editor_start_key_edit st)
          else some st) = some st' := hstep
      clear hstep
      split at hstep'
      · injection hstep' with he; rw [← he]; exact hmem
      · split at hstep'
        · injection hstep' with he
          rw [← he]
          unfold editor_add_attribute
          dsimp only
          rw [List.map_append]
          exact List.mem_append_left _ hmem
        · split at hstep'
          · injection hstep' with he
            rw [← he]
            unfold editor_cycle_type
            cases hq : st.attributes[st.selectedAttributeIndex]? with
            | none => exact hmem
            | some kv =>
              obtain ⟨key, v⟩ := kv
              cases hk : is_key_name st.hashKeySchema st.rangeKeySchema key with
              | true =>
                simp only [hk, if_true]
                exact hmem
              | false =>
                simp only [hk, Bool.false_eq_true, if_false]
                exact key_name_mem_set_value st key v _ n hq hmem
          · split at hstep'
            · injection hstep' with he
              rw [← he]
              unfold editor_delete_attribute
              cases hq : st.attributes[st.selectedAttributeIndex]? with
              | none => exact hmem
              | some kv =>
                obtain ⟨key, v⟩ := kv
                cases hk : is_key_name st.hashKeySchema st.rangeKeySchema key with
                | true =>
                  simp only [hk, if_true]
                  exact hmem
                | false =>
                  simp only [hk, Bool.false_eq_true, if_false]
                  exact key_name_mem_erase st key v n hq
                    (is_key_name_ne _ _ _ _ hk hkeyn) hmem
            · split at hstep'
              · injection hstep' with he
                rw [← he]
                rw [(editor_start_key_edit_shape st).2]
                exact hmem
              · injection hstep' with he
                rw [← he]
                exact hmem

theorem editor_delete_attribute_blocked (st : ItemEditorState)
    (key : String) (v : AttributeValue)
    (hq : st.attributes[st.selectedAttributeIndex]? = some (key, v))
    (hk : is_key_name st.hashKeySchema st.rangeKeySchema key = true) :
    editor_delete_attribute st = st := by
  unfold editor_delete_attribute
  rw [hq]
  dsimp only
  simp only [hk, if_true]

theorem editor_cycle_type_blocked (st : ItemEditorState)
    (key : String) (v : AttributeValue)
    (hq : st.attributes[st.selectedAttributeIndex]? = some (key, v))
    (hk : is_key_name st.hashKeySchema st.rangeKeySchema key = true) :
    editor_cycle_type st = st := by
  unfold editor_cycle_type
  rw [hq]
  dsimp only
  simp only [hk, if_true]

theorem editor_start_key_edit_blocked (st : ItemEditorState)
    (key : String) (v : AttributeValue)
    (hq : st.attributes[st.selectedAttributeIndex]? = some (key, v))
    (hk : is_key_name st.hashKeySchema st.rangeKeySchema key = true) :
    editor_start_key_edit st = st := by
  unfold editor_start_key_edit
  rw [hq]
  dsimp only
  simp only [hk, if_true]

/-- Claim C1: primary-key attributes are protected.  On any editor state
with no sub-edit active whose selected row bears the hash-key name (or the
declared range-key name), delete-attribute, cycle-type and start-key-edit
are all complete no-ops (in particular the `EditingKey` sub-state is not
entered); moreover, along every sequence of editor commands from a state
whose pending rename (if any) targets a non-key row, that safety is
preserved and a key-named attribute never disappears from the attribute
sequence — it is neither removed nor renamed.  Both editor entry points
establish the safety, and in Create mode the hash-key row is present from
the start. -/
theorem key_attribute_protection :
    (∀ (st : ItemEditorState) (kv : String × AttributeValue),
      st.editingField = none →
      st.attributes[st.selectedAttributeIndex]? = some kv →
      is_key_name st.hashKeySchema st.rangeKeySchema kv.1 = true →
      editor_step st (EKey.char 'd' true) = some st ∧
      editor_step st (EKey.char 't' true) = some st ∧
      editor_step st (EKey.char 'k' true) = some st) ∧
    (∀ (st : ItemEditorState) (k : EKey) (st' : ItemEditorState),
      editor_step st k = some st' → KeyEditSafe st → KeyEditSafe st') ∧
    (∀ (st : ItemEditorState) (k : EKey) (st' : ItemEditorState) (n : String),
      editor_step st k = some st' → KeyEditSafe st →
      is_key_name st.hashKeySchema st.rangeKeySchema n = true →
      n ∈ st.attributes.map Prod.fst → n ∈ st'.attributes.map Prod.fst) ∧
    (∀ tbl : DynamoTable, KeyEditSafe (start_create_item tbl) ∧
      tbl.hashKey.name ∈ (start_create_item tbl).attributes.map Prod.fst) ∧
    (∀ (tbl : DynamoTable) (itemAttrs : List (String × AttributeValue)),
      KeyEditSafe (start_edit_item tbl itemAttrs)) := by
  refine ⟨?_, editor_step_keyEditSafe, editor_step_key_name_mem, ?_, ?_⟩
  · intro st kv hed hq hk
    obtain ⟨key, v⟩ := kv
    refine ⟨?_, ?_, ?_⟩
    · show (match st.editingField with
        | some f => some (handle_attribute_editing st (EKey.char 'd' true) f)
        | none => some (editor_delete_attribute st)) = some st
      rw [hed, editor_delete_attribute_blocked st key v hq hk]
    · show (match st.editingField with
        | some f => some (handle_attribute_editing st (EKey.char 't' true) f)
        | none => some (editor_cycle_type st)) = some st
      rw [hed, editor_cycle_type_blocked st key v hq hk]
    · show (match st.editingField with
        | some f => some (handle_attribute_editing st (EKey.char 'k' true) f)
        | none => some (editor_start_key_edit st)) = some st
      rw [hed, editor_start_key_edit_blocked st key v hq hk]
  · intro tbl
    refine ⟨keyEditSafe_of_none _ rfl, ?_⟩
    simp [start_create_item]
  · intro tbl itemAttrs
    exact keyEditSafe_of_none _ rfl

/-- Witness for C1 at a concrete editor: selected row is the hash key
`"id"`; all three protected commands leave the state untouched, and the
initial create-editor for that schema is key-edit-safe with `"id"` present. -/
theorem key_attribute_protection_witness :
    (editor_step
        { mode := EditorMode.create, tableName := "t"
          hashKeySchema := { name := "id", keyType := AttributeType.string }
          rangeKeySchema := none
          attributes := [("id", AttributeValue.str "1")]
          selectedAttributeIndex := 0, editingField := none, inputBuffer := "" }
        (EKey.char 'd' true)
      = some
        { mode := EditorMode.create, tableName := "t"
          hashKeySchema := { name := "id", keyType := AttributeType.string }
          rangeKeySchema := none
          attributes := [("id", AttributeValue.str "1")]
          selectedAttributeIndex := 0, editingField := none, inputBuffer := "" }) ∧
    (editor_step
        { mode := EditorMode.create, tableName := "t"
          hashKeySchema := { name := "id", keyType := AttributeType.string }
          rangeKeySchema := none
          attributes := [("id", AttributeValue.str "1")]
          selectedAttributeIndex := 0, editingField := none, inputBuffer := "" }
        (EKey.char 'k' true)
      = some
        { mode := EditorMode.create, tableName := "t"
          hashKeySchema := { name := "id", keyType := AttributeType.string }
          rangeKeySchema := none
          attributes := [("id", AttributeValue.str "1")]
          selectedAttributeIndex := 0, editingField := none, inputBuffer := "" }) := by
  have h := key_attribute_protection.1
    { mode := EditorMode.create, tableName := "t"
      hashKeySchema := { name := "id", keyType := AttributeType.string }
      rangeKeySchema := none
      attributes := [("id", AttributeValue.str "1")]
      selectedAttributeIndex := 0, editingField := none, inputBuffer := "" }
    ("id", AttributeValue.str "1") rfl rfl (by decide)
  exact ⟨h.1, h.2.2⟩

/-! ### Binary hex display round trip (claim C7) -/

theorem hexDigitChar_val : ∀ n < 16, hexDigitVal (hexDigitChar n) = some n := by
  decide

theorem hexDigitChar_ne_plus : ∀ n < 16, (hexDigitChar n == '+') = false := by
  decide

theorem hexDigitChar_not_ws : ∀ n < 16, rustWs (hexDigitChar n) = false := by
  decide

theorem dropWhile_eq_self_of_not (p : Char → Bool) (l : List Char)
    (h : ∀ c ∈ l, p c = false) : l.dropWhile p = l := by
  cases l with
  | nil => rfl
  | cons a t =>
    rw [List.dropWhile_cons, h a (List.mem_cons_self _ _)]
    simp

theorem rustTrim_eq_self (l : List Char) (h : ∀ c ∈ l, rustWs c = false) :
    rustTrim l = l := by
  unfold rustTrim
  rw [dropWhile_eq_self_of_not _ _ h]
  rw [dropWhile_eq_self_of_not _ _ (by
    intro c hc
    exact h c (List.mem_reverse.mp hc))]
  exact List.reverse_reverse l

theorem bytesToHex_not_ws (bs : List Nat) (h : ∀ b ∈ bs, b < 256) :
    ∀ c ∈ bytesToHex bs, rustWs c = false := by
  induction bs with
  | nil => intro c hc; cases hc
  | cons b t ih =>
    intro c hc
    have hb : b < 256 := h b (List.mem_cons_self _ _)
    cases hc with
    | head => exact hexDigitChar_not_ws (b / 16) (by omega)
    | tail _ hc' =>
      cases hc' with
      | head => exact hexDigitChar_not_ws (b % 16) (Nat.mod_lt _ (by omega))
      | tail _ hc'' => exact ih (fun x hx => h x (List.mem_cons_of_mem _ hx)) c hc''

theorem hexPairs_bytesToHex (bs : List Nat) (h : ∀ b ∈ bs, b < 256) :
    hexPairs (bytesToHex bs) = bs := by
  induction bs with
  | nil => rfl
  | cons b t ih =>
    have hb : b < 256 := h b (List.mem_cons_self _ _)
    have hdiv : b / 16 < 16 := by omega
    have hmod : b % 16 < 16 := Nat.mod_lt _ (by omega)
    show hexPairs (hexDigitChar (b / 16) :: hexDigitChar (b % 16) :: bytesToHex t)
        = b :: t
    unfold hexPairs
    have hpair : hexPairVal (hexDigitChar (b / 16)) (hexDigitChar (b % 16))
        = some b := by
      unfold hexPairVal
      rw [hexDigitChar_ne_plus (b / 16) hdiv]
      rw [hexDigitChar_val (b / 16) hdiv, hexDigitChar_val (b % 16) hmod]
      simp only [Bool.false_eq_true, if_false]
      have : 16 * (b / 16) + b % 16 = b := by omega
      rw [this]
    rw [hpair]
    rw [ih (fun x hx => h x (List.mem_cons_of_mem _ hx))]

/-- Claim C7: rendering a Binary value to its hex display (exactly as
start-value-edit seeds the input buffer: two lowercase digits per byte) and
committing that text through the EditingValue confirm path yields the
original byte sequence, leaving the attribute sequence unchanged. -/
theorem binary_hex_round_trip (st : ItemEditorState) (key : String)
    (bs : List Nat)
    (hed : st.editingField = none)
    (hq : st.attributes[st.selectedAttributeIndex]?
        = some (key, AttributeValue.bin bs))
    (hbytes : ∀ b ∈ bs, b < 256) :
    ∃ st₁ st₂, editor_step st EKey.enter = some st₁ ∧
      st₁.inputBuffer = String.mk (bytesToHex bs) ∧
      editor_step st₁ EKey.enter = some st₂ ∧
      st₂.attributes = st.attributes := by
  have h1 : editor_start_value_edit st =
      { st with inputBuffer := String.mk (bytesToHex bs),
                editingField := some EditingField.value } := by
    unfold editor_start_value_edit
    rw [hq]
  refine ⟨editor_start_value_edit st,
    editor_commit_edit (editor_start_value_edit st) EditingField.value,
    ?_, ?_, ?_, ?_⟩
  · show (match st.editingField with
      | some f => some (handle_attribute_editing st EKey.enter f)
      | none => some (editor_start_value_edit st)) = _
    rw [hed]
  · rw [h1]
  · show (match (editor_start_value_edit st).editingField with
      | some f => some (handle_attribute_editing (editor_start_value_edit st)
          EKey.enter f)
      | none => some (editor_start_value_edit (editor_start_value_edit st)))
        = _
    rw [h1]
    rfl
  · rw [h1]
    unfold editor_commit_edit
    dsimp only
    rw [hq]
    dsimp only
    have htrim : rustTrim (bytesToHex bs) = bytesToHex bs :=
      rustTrim_eq_self _ (bytesToHex_not_ws bs hbytes)
    rw [htrim, hexPairs_bytesToHex bs hbytes]
    exact set_self_of_getElem? _ _ _ hq

/-- Witness for C7 at concrete bytes `[0x4f, 0xa6]` on a Binary attribute
`"payload"`: the seeded buffer is `"4fa6"` and committing restores the
bytes. -/
theorem binary_hex_round_trip_witness :
    ∃ st₁ st₂,
      editor_step
          { mode := EditorMode.edit, tableName := "t"
            hashKeySchema := { name := "id", keyType := AttributeType.string }
            rangeKeySchema := none
            attributes := [("id", AttributeValue.str "1"),
                           ("payload", AttributeValue.bin [79, 166])]
            selectedAttributeIndex := 1, editingField := none, inputBuffer := "" }
          EKey.enter = some st₁ ∧
      st₁.inputBuffer = "4fa6" ∧
      editor_step st₁ EKey.enter = some st₂ ∧
      st₂.attributes = [("id", AttributeValue.str "1"),
                        ("payload", AttributeValue.bin [79, 166])] := by
  obtain ⟨st₁, st₂, ha, hb, hc, hd⟩ := binary_hex_round_trip
    { mode := EditorMode.edit, tableName := "t"
      hashKeySchema := { name := "id", keyType := AttributeType.string }
      rangeKeySchema := none
      attributes := [("id", AttributeValue.str "1"),
                     ("payload", AttributeValue.bin [79, 166])]
      selectedAttributeIndex := 1, editingField := none, inputBuffer := "" }
    "payload" [79, 166] rfl rfl (by decide)
  exact ⟨st₁, st₂, ha, by rw [hb]; rfl, hc, hd⟩

/-! ### Lenient Binary hex commit and its byte-level panic (claim C8) -/

theorem rustHexLoop_ascii_aux : ∀ (n : Nat) (l : List Char), l.length ≤ n →
    (∀ c ∈ l, c.utf8Size = 1) → rustHexLoop l = Except.ok (hexPairs l) := by
  intro n
  induction n with
  | zero =>
    intro l hl h
    cases l with
    | nil => rfl
    | cons c t => simp at hl
  | succ m ih =>
    intro l hl h
    rcases l with _ | ⟨c₁, _ | ⟨c₂, rest⟩⟩
    · rfl
    · have hc := h c₁ (by simp)
      simp [rustHexLoop, hc, hexPairs]
    · have hc1 := h c₁ (by simp)
      have hc2 := h c₂ (by simp)
      have hr : ∀ c ∈ rest, c.utf8Size = 1 := fun c hc => h c (by simp [hc])
      have hlen : rest.length ≤ m := by
        simp at hl
        omega
      unfold rustHexLoop
      rw [if_pos hc1, if_pos hc2]
      cases hp : hexPairVal c₁ c₂ with
      | some b =>
        rw [ih rest hlen hr]
        simp [hexPairs, hp, Except.map]
      | none =>
        rw [ih rest hlen hr]
        simp [hexPairs, hp]

/-- Claim C8, settled as a code bug.  The intended lenient behaviour holds on
every buffer of single-byte characters: the byte loop equals the pair scan
`hexPairs`, which drops a trailing unpaired digit and every pair that does
not parse, and the concrete buffer `"4f6"` commits to bytes `[0x4f]`.  But
the claim's "for every input buffer ... never fails" is false: the Rust loop
slices the buffer by BYTES, so a buffer containing a multi-byte character —
e.g. `"aé"`, typable in the editor — makes the slice boundary fall inside a
character's UTF-8 encoding, which panics (modelled as `Except.error`). -/
theorem binary_hex_commit_lenient :
    (∀ l : List Char, (∀ c ∈ l, c.utf8Size = 1) →
      rustHexLoop l = Except.ok (hexPairs l)) ∧
    (∀ c : Char, hexPairs [c] = []) ∧
    (∀ (c₁ c₂ : Char) (rest : List Char), hexPairVal c₁ c₂ = none →
      hexPairs (c₁ :: c₂ :: rest) = hexPairs rest) ∧
    (∀ (c₁ c₂ : Char) (rest : List Char) (b : Nat), hexPairVal c₁ c₂ = some b →
      hexPairs (c₁ :: c₂ :: rest) = b :: hexPairs rest) ∧
    (editor_step
        { mode := EditorMode.edit, tableName := "t"
          hashKeySchema := { name := "id", keyType := AttributeType.string }
          rangeKeySchema := none
          attributes := [("b", AttributeValue.bin [])]
          selectedAttributeIndex := 0
          editingField := some EditingField.value
          inputBuffer := "4f6" }
        EKey.enter
      = some
        { mode := EditorMode.edit, tableName := "t"
          hashKeySchema := { name := "id", keyType := AttributeType.string }
          rangeKeySchema := none
          attributes := [("b", AttributeValue.bin [79])]
          selectedAttributeIndex := 0
          editingField := none
          inputBuffer := "" }) ∧
    rustHexLoop (rustTrim "aé".data) = Except.error () := by
  refine ⟨fun l h => rustHexLoop_ascii_aux l.length l le_rfl h, ?_, ?_, ?_, ?_, ?_⟩
  · intro c; rfl
  · intro c₁ c₂ rest hp
    simp only [hexPairs, hp]
  · intro c₁ c₂ rest b hp
    simp only [hexPairs, hp]
  · rfl
  · rfl

/-- Witness for C8: the all-single-byte agreement applied at the concrete
buffer `"4f6"`, whose byte loop succeeds with `[0x4f]`. -/
theorem binary_hex_commit_lenient_witness :
    rustHexLoop "4f6".data = Except.ok [79] := by
  have h := binary_hex_commit_lenient.1 "4f6".data (by decide)
  rw [h]
  rfl

/-! ### Edit-mode attribute ordering (claim C10) -/

theorem chars_cmp_nil_ne_gt : ∀ c : List Char, chars_cmp [] c ≠ Ordering.gt := by
  intro c
  cases c <;> simp [chars_cmp]

theorem chars_le_trans : ∀ a b c : List Char,
    chars_cmp a b ≠ Ordering.gt → chars_cmp b c ≠ Ordering.gt →
    chars_cmp a c ≠ Ordering.gt := by
  intro a
  induction a with
  | nil => intro b c _ _; exact chars_cmp_nil_ne_gt c
  | cons x xs ih =>
    intro b c h1 h2
    cases b with
    | nil => exact absurd rfl h1
    | cons y ys =>
      cases c with
      | nil => exact absurd rfl h2
      | cons z zs =>
        simp only [chars_cmp] at h1 h2 ⊢
        have hxy : ¬ y.toNat < x.toNat := by
          intro hlt
          apply h1
          rw [if_neg (by omega), if_pos hlt]
        have hyz : ¬ z.toNat < y.toNat := by
          intro hlt
          apply h2
          rw [if_neg (by omega), if_pos hlt]
        by_cases hxz : x.toNat < z.toNat
        · rw [if_pos hxz]
          simp
        · rw [if_neg hxz, if_neg (by omega)]
          rw [if_neg (by omega), if_neg (by omega)] at h1
          rw [if_neg (by omega), if_neg (by omega)] at h2
          exact ih ys zs h1 h2

theorem chars_le_total : ∀ a b : List Char,
    chars_cmp a b ≠ Ordering.gt ∨ chars_cmp b a ≠ Ordering.gt := by
  intro a
  induction a with
  | nil => intro b; exact Or.inl (chars_cmp_nil_ne_gt b)
  | cons x xs ih =>
    intro b
    cases b with
    | nil => exact Or.inr (chars_cmp_nil_ne_gt _)
    | cons y ys =>
      simp only [chars_cmp]
      by_cases hxy : x.toNat < y.toNat
      · left
        rw [if_pos hxy]
        simp
      · by_cases hyx : y.toNat < x.toNat
        · right
          rw [if_pos hyx]
          simp
        · rw [if_neg hxy, if_neg hyx, if_neg hyx, if_neg hxy]
          exact ih ys

theorem attr_le_total (tbl : DynamoTable) :
    ∀ a b, attr_le tbl a b ∨ attr_le tbl b a := by
  intro a b
  unfold attr_le attr_cmp
  cases hA : table_is_key tbl a.1 <;> cases hB : table_is_key tbl b.1
  · exact chars_le_total a.1.data b.1.data
  · right
    simp
  · left
    simp
  · exact chars_le_total a.1.data b.1.data

theorem attr_le_trans (tbl : DynamoTable) :
    ∀ a b c, attr_le tbl a b → attr_le tbl b c → attr_le tbl a c := by
  intro a b c h1 h2
  unfold attr_le attr_cmp at h1 h2 ⊢
  cases hA : table_is_key tbl a.1 <;> cases hB : table_is_key tbl b.1 <;>
    cases hC : table_is_key tbl c.1 <;> rw [hA, hB] at h1 <;> rw [hB, hC] at h2
  · exact chars_le_trans _ _ _ h1 h2
  · exact absurd rfl h2
  · exact absurd rfl h1
  · exact absurd rfl h1
  · exact fun h => Ordering.noConfusion h
  · exact absurd rfl h2
  · exact fun h => Ordering.noConfusion h
  · exact chars_le_trans _ _ _ h1 h2

/-- Claim C10: opening the AttributeEditor in Edit mode sorts the record's
attribute pairs so that key-named attributes (hash key, and range key when
declared) come first and all remaining attributes follow in ascending
lexicographic name order, with the selection initialised to index 0 and no
sub-edit active; the sequence is a permutation of the record's attributes. -/
theorem edit_item_attributes_order (tbl : DynamoTable)
    (itemAttrs : List (String × AttributeValue)) :
    (start_edit_item tbl itemAttrs).selectedAttributeIndex = 0 ∧
    (start_edit_item tbl itemAttrs).mode = EditorMode.edit ∧
    (start_edit_item tbl itemAttrs).editingField = none ∧
    List.Perm (start_edit_item tbl itemAttrs).attributes itemAttrs ∧
    List.Pairwise (fun a b =>
        (table_is_key tbl b.1 = true → table_is_key tbl a.1 = true) ∧
        (table_is_key tbl a.1 = false → table_is_key tbl b.1 = false →
          chars_cmp a.1.data b.1.data ≠ Ordering.gt))
      (start_edit_item tbl itemAttrs).attributes := by
  refine ⟨rfl, rfl, rfl, List.perm_insertionSort _ _, ?_⟩
  haveI hT : IsTotal (String × AttributeValue) (attr_le tbl) := ⟨attr_le_total tbl⟩
  haveI hR : IsTrans (String × AttributeValue) (attr_le tbl) := ⟨attr_le_trans tbl⟩
  have hsorted : List.Sorted (attr_le tbl)
      (List.insertionSort (attr_le tbl) itemAttrs) :=
    List.sorted_insertionSort (attr_le tbl) itemAttrs
  refine List.Pairwise.imp ?_ hsorted
  intro a b hle
  unfold attr_le attr_cmp at hle
  constructor
  · intro hb
    cases hA : table_is_key tbl a.1 with
    | true => rfl
    | false =>
      rw [hA, hb] at hle
      exact absurd rfl hle
  · intro hA hB
    rw [hA, hB] at hle
    exact hle

/-- Witness for C10 at a concrete table (hash key `"b"`, range key `"a"`)
and record: the sorted sequence puts the key rows `"a"`, `"b"` first and the
remaining names `"aa"`, `"c"` in ascending lexicographic order, the result
is a permutation of the input, and the selection starts at 0. -/
theorem edit_item_attributes_order_witness :
    (start_edit_item
        { name := "t", hashKey := { name := "b", keyType := AttributeType.string }
          rangeKey := some { name := "a", keyType := AttributeType.string }
          billingMode := BillingMode.onDemand, readCapacity := none
          writeCapacity := none, tableStatus := "", itemCount := none
          tableSizeBytes := none, region := "" }
        [("c", AttributeValue.num "1"), ("b", AttributeValue.num "2"),
         ("a", AttributeValue.num "3"), ("aa", AttributeValue.num "4")]).selectedAttributeIndex
      = 0 ∧
    List.Perm
      (start_edit_item
        { name := "t", hashKey := { name := "b", keyType := AttributeType.string }
          rangeKey := some { name := "a", keyType := AttributeType.string }
          billingMode := BillingMode.onDemand, readCapacity := none
          writeCapacity := none, tableStatus := "", itemCount := none
          tableSizeBytes := none, region := "" }
        [("c", AttributeValue.num "1"), ("b", AttributeValue.num "2"),
         ("a", AttributeValue.num "3"), ("aa", AttributeValue.num "4")]).attributes
      [("c", AttributeValue.num "1"), ("b", AttributeValue.num "2"),
       ("a", AttributeValue.num "3"), ("aa", AttributeValue.num "4")] ∧
    (start_edit_item
        { name := "t", hashKey := { name := "b", keyType := AttributeType.string }
          rangeKey := some { name := "a", keyType := AttributeType.string }
          billingMode := BillingMode.onDemand, readCapacity := none
          writeCapacity := none, tableStatus := "", itemCount := none
          tableSizeBytes := none, region := "" }
        [("c", AttributeValue.num "1"), ("b", AttributeValue.num "2"),
         ("a", AttributeValue.num "3"), ("aa", AttributeValue.num "4")]).attributes.map Prod.fst
      = ["a", "b", "aa", "c"] := by
  have h := edit_item_attributes_order
    { name := "t", hashKey := { name := "b", keyType := AttributeType.string }
      rangeKey := some { name := "a", keyType := AttributeType.string }
      billingMode := BillingMode.onDemand, readCapacity := none
      writeCapacity := none, tableStatus := "", itemCount := none
      tableSizeBytes := none, region := "" }
    [("c", AttributeValue.num "1"), ("b", AttributeValue.num "2"),
     ("a", AttributeValue.num "3"), ("aa", AttributeValue.num "4")]
  exact ⟨h.1, h.2.2.2.1, rfl⟩
